import Mathlib

/-
Verification of the DodecagramAssembler core (DodecagramAssembler.cpp /
DodecagramAssembler.h) and the vetted descriptor table
(Vetted/DodecagramAssembler.h) of the QuarterLang-Pyrus-Edition repository.

The assembler is embedded shallowly: the C++ member functions become pure
Lean functions over an explicit `AsmState`.  C++ `std::unordered_map`s that
are only ever read through `operator[]`/`count` are modelled as association
lists with first-match lookup; `operator[]` on a missing key returns the
value-initialized default `0`, which is modelled by `Option.getD _ 0`
(the silent insertion performed by `operator[]` is unobservable through the
operations used by the assembler, since a later lookup of the inserted key
would return the same `0`).
-/

namespace DG

/-- The opcode table from `DodecagramAssembler::initOpcodeMap`. -/
def opcodeMap : List (String × Nat) :=
  [("dg_01", 0x8B), ("dg_02", 0x89), ("dg_03", 0x01),
   ("dg_04", 0x29), ("dg_05", 0xEB), ("dg_06", 0x39),
   ("dg_07", 0x75), ("dg_08", 0xE8), ("dg_09", 0xC3),
   ("dg_0A", 0x50), ("dg_0B", 0x58), ("dg_0C", 0x31),
   ("dg_0D", 0x21), ("dg_0E", 0x09), ("dg_0F", 0xF7),
   ("dg_10", 0xB8), ("dg_11", 0xC7), ("dg_12", 0x83),
   ("dg_13", 0xD1), ("dg_14", 0xD3), ("dg_15", 0xC1),
   ("dg_16", 0x74), ("dg_17", 0x7C), ("dg_18", 0x7F),
   ("dg_19", 0x7E), ("dg_1A", 0x7D), ("dg_1B", 0xD9),
   ("dg_1C", 0xDD), ("dg_1D", 0x0F), ("dg_1E", 0xCC),
   ("dg_1F", 0x90)]

/-- The register table from `DodecagramAssembler::initRegisterMap`. -/
def registerMap : List (String × Nat) :=
  [("rax", 0x00), ("rcx", 0x01), ("rdx", 0x02),
   ("rbx", 0x03), ("rsp", 0x04), ("rbp", 0x05),
   ("rsi", 0x06), ("rdi", 0x07)]

/-- The reverse opcode map built by `DodecagramAssembler::initReverseMap`
(all opcode bytes in `opcodeMap` are distinct, so the iteration order of the
source map is irrelevant). -/
def opcodeToMnemonic : List (Nat × String) :=
  opcodeMap.map (fun p => (p.2, p.1))

/-- The two's-complement wrap of an integer to the `int32_t` range, modelling
the C++ cast `static_cast<int32_t>`. -/
def asInt32 (v : Int) : Int := (v + 2 ^ 31) % 2 ^ 32 - 2 ^ 31

/-- The unsigned 32-bit pattern of an `int32_t` value, used to read off its
little-endian bytes. -/
def int32Bytes (v : Int) : Nat := (v % (2 ^ 32 : Int)).toNat

/-- Byte `i` (little-endian) of an unsigned bit pattern: `(v >> (i*8)) & 0xFF`. -/
def byteAt (v i : Nat) : Nat := v / 2 ^ (8 * i) % 256

/-- The four little-endian bytes of a 32-bit pattern, as appended by the
loops `for (int i = 0; i < 4; ++i) push_back((x >> (i*8)) & 0xFF)`. -/
def le4 (v : Nat) : List Nat := [byteAt v 0, byteAt v 1, byteAt v 2, byteAt v 3]

/-- `DodecagramAssembler::encodeModRM`: `0xC0 | ((reg & 7) << 3) | (rm & 7)`. -/
def encodeModRM (reg rm : Nat) : Nat :=
  0xC0 ||| ((reg &&& 0x07) <<< 3) ||| (rm &&& 0x07)

/-- `std::stoi`, modelled on well-formed decimal input; a parse failure
(an exception in the source) is modelled as `0`.  Only the `dg_10` branch of
`encodeInstruction` uses it, and that branch is unreachable for two-operand
calls (see the `c1` theorems). -/
def stoi (s : String) : Int := (s.toInt?).getD 0

/-- The mutable state of one `DodecagramAssembler` instance: the assembly
buffer `binary`, the symbol table `labelPositions` and the pending-relocation
map `pendingPatches`.  `labelPositions` is an association list where the most
recent binding is first (`operator[]` assignment = prepend, since the map is
only ever read by lookup); `pendingPatches` keeps insertion order (its keys
are strictly increasing in every reachable state, see `runOps_inv`, so map
insertion is exactly list append). -/
structure AsmState where
  binary : List Nat
  labelPositions : List (String × Nat)
  pendingPatches : List (Nat × String)
deriving Repr, DecidableEq

/-- The freshly constructed assembler: all containers empty. -/
def initState : AsmState := ⟨[], [], []⟩

/-- `DodecagramAssembler::addLabel`: bind `label` to the current buffer size
(a rebinding shadows the previous one: last wins). -/
def addLabel (s : AsmState) (label : String) : AsmState :=
  { s with labelPositions := (label, s.binary.length) :: s.labelPositions }

/-- `DodecagramAssembler::encodeInstruction`, translated branch for branch:
push the opcode byte (`opcodeMap[mnemonic]`, defaulting to 0 for an unknown
mnemonic); then, in this order: a two-operand instruction gets a ModR/M byte
(register lookups default to 0 for unknown names); a one-operand instruction
whose operand is not a bound label records a pending patch at the position
after the opcode and appends four zero placeholder bytes; otherwise, for
mnemonic `dg_10`, the register is folded into the opcode byte and four
little-endian immediate bytes are appended. -/
def encodeInstruction (s : AsmState) (mnemonic : String) (operands : List String) : AsmState :=
  let opcode := (opcodeMap.lookup mnemonic).getD 0
  let bin1 := s.binary ++ [opcode]
  if operands.length = 2 then
    let reg := (registerMap.lookup (operands.getD 0 "")).getD 0
    let rm := (registerMap.lookup (operands.getD 1 "")).getD 0
    { s with binary := bin1 ++ [encodeModRM reg rm] }
  else if operands.length = 1 ∧ ((s.labelPositions.lookup (operands.getD 0 "")).isNone) then
    { s with
      binary := bin1 ++ [0, 0, 0, 0],
      pendingPatches := s.pendingPatches ++ [(bin1.length, operands.getD 0 "")] }
  else if mnemonic = "dg_10" then
    let reg := (registerMap.lookup (operands.getD 0 "")).getD 0
    let imm := asInt32 (stoi (operands.getD 1 ""))
    { s with binary := s.binary ++ [(opcode + reg) % 256] ++ le4 (int32Bytes imm) }
  else
    { s with binary := bin1 }

/-- `DodecagramAssembler::emit` (the `instructions` vector it also fills is
never read back by any of the operations under study and is not modelled). -/
def emit (s : AsmState) (mnemonic : String) (operands : List String) : AsmState :=
  encodeInstruction s mnemonic operands

/-- `DodecagramAssembler::calculateRelOffset`:
`static_cast<int32_t>(dstPos - (srcPos + 4))` (the `size_t` subtraction wraps
modulo 2^64 and the cast reduces modulo 2^32, which together are reduction
modulo 2^32 of the exact integer difference). -/
def calculateRelOffset (srcPos dstPos : Nat) : Int :=
  asInt32 ((dstPos : Int) - ((srcPos : Int) + 4))

/-- Overwrite the four bytes at `pos .. pos+3` of `bin` with the little-endian
bytes of the 32-bit pattern `v`, as the loop body of `backpatch` does. -/
def write4 (bin : List Nat) (pos : Nat) (v : Nat) : List Nat :=
  ((((bin.set pos (byteAt v 0)).set (pos + 1) (byteAt v 1)).set
      (pos + 2) (byteAt v 2)).set (pos + 3) (byteAt v 3))

/-- One iteration of the `backpatch` loop: resolve the label (defaulting to
offset 0 when unbound, as `labelPositions[label]` does) and overwrite the four
placeholder bytes. -/
def patchOne (labels : List (String × Nat)) (bin : List Nat) (p : Nat × String) : List Nat :=
  write4 bin p.1 (int32Bytes (calculateRelOffset p.1 ((labels.lookup p.2).getD 0)))

/-- `DodecagramAssembler::backpatch`: rewrite every pending relocation site
in place. -/
def backpatch (s : AsmState) : AsmState :=
  { s with binary := s.pendingPatches.foldl (patchOne s.labelPositions) s.binary }

/-- `DodecagramAssembler::disassembleAt`, as a pure function from the buffer
and the program counter to the produced text and the new program counter.
A past-the-end `pc` returns the empty string with `pc` unchanged.  The
out-of-bounds read `binary[pc + 1]` the source performs when a
ModR/M-decoded opcode is the last buffer byte is modelled as reading 0. -/
def disassembleAt (binary : List Nat) (pc : Nat) : String × Nat :=
  if binary.length ≤ pc then ("", pc)
  else
    let opcode := binary.getD pc 0
    let mnemonic := ((opcodeToMnemonic.lookup opcode)).getD "unknown"
    if opcode = 0x8B ∨ opcode = 0x89 ∨ opcode = 0x01 ∨ opcode = 0x29 then
      let modrm := binary.getD (pc + 1) 0
      let reg := (modrm >>> 3) &&& 7
      let rm := modrm &&& 7
      (mnemonic ++ " r" ++ toString reg ++ ", r" ++ toString rm, pc + 2)
    else
      (mnemonic, pc + 1)

/-- One call against the assembler's public mutating interface. -/
inductive AsmOp where
  | emit (mnemonic : String) (operands : List String)
  | addLabel (label : String)
deriving Repr, DecidableEq

/-- Apply one interface call to the state. -/
def stepOp (s : AsmState) : AsmOp → AsmState
  | .emit m ops => emit s m ops
  | .addLabel l => addLabel s l

/-- Run a sequence of interface calls on a fresh assembler. -/
def runOps (ops : List AsmOp) : AsmState := ops.foldl stepOp initState

/-- The exact call sequence of `Vetted/Main.cpp`. -/
def mainOps : List AsmOp :=
  [.addLabel "start",
   .emit "dg_10" ["rax", "42"],
   .emit "dg_01" ["rdx", "rax"],
   .emit "dg_08" ["end"],
   .emit "dg_09" [],
   .addLabel "end",
   .emit "dg_09" []]

/-- One entry of the vetted descriptor table: opcode byte, total encoded
length, operand-encoding kind. -/
structure VettedDescriptor where
  opcode : Nat
  len : Nat
  operandType : String
deriving Repr, DecidableEq

/-- The descriptor table `dgOpcodeMap` from `Vetted/DodecagramAssembler.h`
(the only table in the repository that records operand-encoding kinds). -/
def dgOpcodeMapVetted : List (String × VettedDescriptor) :=
  [("dg_01", ⟨0x8B, 2, "reg,r/m"⟩),
   ("dg_02", ⟨0x89, 2, "r/m,reg"⟩),
   ("dg_03", ⟨0x01, 2, "r/m,reg"⟩),
   ("dg_04", ⟨0x29, 2, "r/m,reg"⟩),
   ("dg_05", ⟨0xEB, 2, "rel8"⟩),
   ("dg_06", ⟨0x39, 2, "r/m,reg"⟩),
   ("dg_07", ⟨0x75, 2, "rel8"⟩),
   ("dg_08", ⟨0xE8, 5, "rel32"⟩),
   ("dg_09", ⟨0xC3, 1, ""⟩),
   ("dg_0A", ⟨0x50, 1, "reg"⟩),
   ("dg_0B", ⟨0x58, 1, "reg"⟩),
   ("dg_10", ⟨0xB8, 5, "reg,imm32"⟩),
   ("dg_11", ⟨0xC7, 6, "r/m,imm32"⟩),
   ("dg_12", ⟨0x83, 3, "r/m,imm8"⟩),
   ("dg_16", ⟨0x74, 2, "rel8"⟩),
   ("dg_1F", ⟨0x90, 1, ""⟩)]

end DG

namespace DG

/-- A string of length zero is the empty string. -/
theorem length_zero_eq_empty (s : String) (h2 : s.length = 0) : s = "" := by
  cases s with
  | mk data =>
    simp only [String.length] at h2
    rw [List.length_eq_zero] at h2
    simp [h2]

/-- Appending on the right preserves being a nonempty string. -/
theorem append_ne_empty_left (s t : String) (h : s ≠ "") : (s ++ t) ≠ "" := by
  intro he
  have h1 : (s ++ t).length = 0 := by rw [he]; rfl
  rw [String.length_append] at h1
  exact h (length_zero_eq_empty s (by omega))

/-- A defaulted lookup in a table whose values are all nonempty, with a
nonempty default, is nonempty. -/
theorem lookup_getD_ne (l : List (Nat × String)) (k : Nat) (d : String)
    (h : ∀ p ∈ l, p.2 ≠ "") (hd : d ≠ "") : ((l.lookup k).getD d) ≠ "" := by
  induction l with
  | nil => simpa [List.lookup]
  | cons a t ih =>
    rw [List.lookup]
    split
    · exact h a (by simp)
    · exact ih (fun p hp => h p (List.mem_cons_of_mem _ hp))

/-- The mnemonic text chosen by `disassembleAt` (a reverse-map hit or the
sentinel `"unknown"`) is never the empty string. -/
theorem mnemonic_ne_empty (oc : Nat) :
    ((opcodeToMnemonic.lookup oc).getD "unknown") ≠ "" :=
  lookup_getD_ne _ oc _ (by decide) (by decide)

/-- Claim C1 as stated is false of the code: running the exact
`Vetted/Main.cpp` call sequence does not produce a 14-byte buffer with
`"end"` bound at offset 13 (the buffer has 11 bytes and `"end"` is bound at
offset 10, because the two-operand check of `encodeInstruction` precedes and
shadows the `dg_10` immediate branch). -/
theorem c1_counterexample :
    ¬ ((backpatch (runOps mainOps)).binary.length = 14 ∧
       (runOps mainOps).labelPositions.lookup "end" = some 13) := by
  decide

/-- Claim C1 (amended): running the `Vetted/Main.cpp` call sequence followed
by `backpatch` produces the 11-byte buffer
`B8 C0 8B D0 E8 01 00 00 00 C3 C3`: the `dg_10` emit takes the two-operand
ModR/M branch (folding neither register nor immediate, treating `"42"` as an
unknown register of code 0), the `dg_01` move encodes as `8B D0`, the call
placeholder at offset 5 is backpatched to little-endian 1
(`= 10 - (5 + 4)`), and label `"end"` is bound at offset 10. -/
theorem c1_amended :
    (backpatch (runOps mainOps)).binary =
      [0xB8, 0xC0, 0x8B, 0xD0, 0xE8, 0x01, 0x00, 0x00, 0x00, 0xC3, 0xC3] ∧
    (runOps mainOps).labelPositions.lookup "end" = some 10 ∧
    (runOps mainOps).pendingPatches = [(5, "end")] := by
  decide

/-- Claim C2 as stated is false of the code: descriptor `dg_06` has kind
`r/m,reg` in the vetted table, but its opcode `0x39` is not among the four
opcodes (`8B 89 01 29`) whose ModR/M byte `disassembleAt` decodes, so
disassembling the two bytes emitted for `dg_06 rax, rcx` yields the bare
mnemonic with a 1-byte consumption and does not recover the two supplied
register indices 0 and 1. -/
theorem c2_counterexample :
    ("dg_06", ⟨0x39, 2, "r/m,reg"⟩) ∈ dgOpcodeMapVetted ∧
    ("rax", 0) ∈ registerMap ∧ ("rcx", 1) ∈ registerMap ∧
    disassembleAt (runOps [.emit "dg_06" ["rax", "rcx"]]).binary 0 = ("dg_06", 1) ∧
    disassembleAt (runOps [.emit "dg_06" ["rax", "rcx"]]).binary 0 ≠ ("dg_06 r0, r1", 2) := by
  decide

/-- Claim C2 (amended): for every descriptor of kind `reg,r/m` or `r/m,reg`
except `dg_06` (opcode `0x39`), and for every pair of register names in the
register table, emitting the instruction (opcode byte, then a ModR/M byte
with mode bits 11, the first register in bits 5-3 and the second in bits 2-0)
and disassembling the two resulting bytes at the instruction's offset
recovers exactly the two supplied 3-bit register indices, with a 2-byte
consumption. -/
theorem c2_amended :
    ∀ p ∈ dgOpcodeMapVetted,
      (p.2.operandType = "reg,r/m" ∨ p.2.operandType = "r/m,reg") →
      p.2.opcode ≠ 0x39 →
      ∀ q1 ∈ registerMap, ∀ q2 ∈ registerMap,
        disassembleAt (runOps [.emit p.1 [q1.1, q2.1]]).binary 0 =
          (p.1 ++ " r" ++ toString q1.2 ++ ", r" ++ toString q2.2, 2) := by
  decide

/-- Witness for `c2_amended`: `dg_01` with registers `rdx`, `rax` encodes to
`8B D0` and disassembles back to register indices 2 and 0. -/
theorem c2_amended_witness :
    disassembleAt (runOps [.emit "dg_01" ["rdx", "rax"]]).binary 0 =
      ("dg_01" ++ " r" ++ toString 2 ++ ", r" ++ toString 0, 2) :=
  c2_amended ("dg_01", ⟨0x8B, 2, "reg,r/m"⟩) (by decide) (by decide) (by decide)
    ("rdx", 2) (by decide) ("rax", 0) (by decide)

/-- Claim C4 is false of the code (code bug): for a backward reference, where
the target label is already bound at encode time, `encodeInstruction` falls
through every operand branch and emits only the opcode byte; no displacement
bytes are computed or written at encode time (and no pending relocation is
recorded either). -/
theorem c4_code_behavior :
    (runOps [.addLabel "loop", .emit "dg_08" ["loop"]]).binary = [0xE8] ∧
    (runOps [.addLabel "loop", .emit "dg_08" ["loop"]]).pendingPatches = [] := by
  decide

/-- Claim C5 is false of the code (code bug): a pending relocation whose
label is never bound does not raise any error at `backpatch` time; the
lookup `labelPositions[label]` default-constructs offset 0 and the site is
overwritten with the little-endian bytes of `0 - (1 + 4) = -5`,
namely `FB FF FF FF`. -/
theorem c5_code_behavior :
    (backpatch (runOps [.emit "dg_08" ["missing"]])).binary =
      [0xE8, 0xFB, 0xFF, 0xFF, 0xFF] := by
  decide

/-- Claim C7 is false of the code (code bug): emitting with an unregistered
register name appends bytes anyway; `registerMap[operand]` default-constructs
register code 0, so `emit("dg_01", {"bogus","rax"})` on a fresh assembler
appends the opcode byte and a ModR/M byte `C0` instead of raising
`UnknownRegister` before any write. -/
theorem c7_code_behavior :
    (runOps [.emit "dg_01" ["bogus", "rax"]]).binary = [0x8B, 0xC0] := by
  decide

/-- Claim C8 is false of the code (code bug): emitting a mnemonic that is not
a key of the opcode table does not fail; `opcodeMap[mnemonic]`
default-constructs opcode 0 and the single byte `00` is appended to the
buffer. -/
theorem c8_code_behavior :
    (runOps [.emit "dg_XX" []]).binary = [0x00] := by
  decide

/-- Overwriting four bytes in place preserves the buffer length. -/
theorem length_write4 (bin : List Nat) (pos v : Nat) :
    (write4 bin pos v).length = bin.length := by
  simp [write4]

/-- The whole backpatch loop preserves the buffer length. -/
theorem length_patchAll (labels : List (String × Nat)) (ps : List (Nat × String))
    (bin : List Nat) : (ps.foldl (patchOne labels) bin).length = bin.length := by
  induction ps generalizing bin with
  | nil => rfl
  | cons p t ih => rw [List.foldl_cons, ih]; simp [patchOne, length_write4]

/-- The little-endian byte pattern of the `int32_t`-wrapped value is the
integer reduced modulo 2^32. -/
theorem int32Bytes_asInt32 (x : Int) :
    int32Bytes (asInt32 x) = (x % (2 ^ 32 : Int)).toNat := by
  unfold int32Bytes asInt32
  omega

/-- A `write4` at `pos` leaves every byte outside `pos .. pos+3` unchanged. -/
theorem write4_getD_outside (bin : List Nat) (pos v i : Nat)
    (h : i < pos ∨ pos + 4 ≤ i) : (write4 bin pos v).getD i 0 = bin.getD i 0 := by
  simp only [write4, List.getD_eq_getElem?_getD]
  rw [List.getElem?_set_ne (by omega), List.getElem?_set_ne (by omega),
      List.getElem?_set_ne (by omega), List.getElem?_set_ne (by omega)]

/-- A `write4` whose window lies inside the buffer puts byte `i` of the value
at `pos + i`. -/
theorem write4_getD_inside (bin : List Nat) (pos v i : Nat)
    (hlen : pos + 4 ≤ bin.length) (hi : i < 4) :
    (write4 bin pos v).getD (pos + i) 0 = byteAt v i := by
  have h4 : i = 0 ∨ i = 1 ∨ i = 2 ∨ i = 3 := by omega
  simp only [write4, List.getD_eq_getElem?_getD]
  rcases h4 with h | h | h | h <;> subst h
  · rw [List.getElem?_set_ne (by omega), List.getElem?_set_ne (by omega),
        List.getElem?_set_ne (by omega), show pos + 0 = pos from rfl,
        List.getElem?_set_eq_of_lt _ (by omega)]
    rfl
  · rw [List.getElem?_set_ne (by omega), List.getElem?_set_ne (by omega),
        List.getElem?_set_eq_of_lt _ (by simp [List.length_set]; omega)]
    rfl
  · rw [List.getElem?_set_ne (by omega),
        List.getElem?_set_eq_of_lt _ (by simp [List.length_set]; omega)]
    rfl
  · rw [List.getElem?_set_eq_of_lt _ (by simp [List.length_set]; omega)]
    rfl

/-- The invariant maintained by every assembler operation: each pending
relocation window `pos .. pos+3` lies inside the buffer, and the recorded
windows are pairwise disjoint in recording order. -/
def Inv (s : AsmState) : Prop :=
  (∀ p ∈ s.pendingPatches, p.1 + 4 ≤ s.binary.length) ∧
  s.pendingPatches.Pairwise (fun a b => a.1 + 4 ≤ b.1)

/-- The fresh assembler satisfies the invariant. -/
theorem inv_init : Inv initState := by
  constructor <;> simp [initState]

/-- Every `emit` and `addLabel` call preserves the invariant: the buffer
never shrinks, and a new pending relocation is recorded at the buffer's end
immediately before its four placeholder bytes are appended. -/
theorem inv_stepOp (s : AsmState) (op : AsmOp) (h : Inv s) : Inv (stepOp s op) := by
  obtain ⟨hb, hsep⟩ := h
  cases op with
  | addLabel l => exact ⟨hb, hsep⟩
  | emit m ops =>
    simp only [stepOp, emit, encodeInstruction]
    split
    · refine ⟨fun p hp => ?_, hsep⟩
      have := hb p hp
      simp only [List.length_append, List.length_cons, List.length_nil]
      omega
    · split
      · refine ⟨fun p hp => ?_, ?_⟩
        · simp only [List.mem_append, List.mem_singleton] at hp
          rcases hp with hp | hp
          · have := hb p hp
            simp only [List.length_append, List.length_cons, List.length_nil]
            omega
          · subst hp
            simp only [List.length_append, List.length_cons, List.length_nil]
            omega
        · rw [List.pairwise_append]
          refine ⟨hsep, List.pairwise_singleton _ _, fun a ha b hb2 => ?_⟩
          simp only [List.mem_singleton] at hb2
          subst hb2
          have := hb a ha
          simp only [List.length_append, List.length_cons, List.length_nil]
          omega
      · split
        · refine ⟨fun p hp => ?_, hsep⟩
          have := hb p hp
          simp only [le4, List.length_append, List.length_cons, List.length_nil]
          omega
        · refine ⟨fun p hp => ?_, hsep⟩
          have := hb p hp
          simp only [List.length_append, List.length_cons, List.length_nil]
          omega

/-- The invariant holds in every reachable assembler state. -/
theorem inv_runOps (ops : List AsmOp) : Inv (runOps ops) := by
  have key : ∀ (l : List AsmOp) (s : AsmState), Inv s → Inv (l.foldl stepOp s) := by
    intro l
    induction l with
    | nil => exact fun s hs => hs
    | cons a t ih => exact fun s hs => ih _ (inv_stepOp s a hs)
  exact key ops initState inv_init

/-- Bytes outside every pending-relocation window survive the backpatch
loop unchanged. -/
theorem patchAll_getD_outside (labels : List (String × Nat)) (ps : List (Nat × String))
    (bin : List Nat) (i : Nat) (h : ∀ p ∈ ps, i < p.1 ∨ p.1 + 4 ≤ i) :
    (ps.foldl (patchOne labels) bin).getD i 0 = bin.getD i 0 := by
  induction ps generalizing bin with
  | nil => rfl
  | cons p t ih =>
    rw [List.foldl_cons, ih _ (fun q hq => h q (List.mem_cons_of_mem _ hq))]
    simp only [patchOne]
    exact write4_getD_outside _ _ _ _ (h p (by simp))

/-- After the backpatch loop, each pending-relocation window holds the
little-endian bytes of `calculateRelOffset` of its site and the resolved
label offset, provided the windows are in bounds and pairwise disjoint. -/
theorem patchAll_getD_inside (labels : List (String × Nat)) (ps : List (Nat × String))
    (bin : List Nat) (p : Nat × String) (i : Nat) (hi : i < 4)
    (hb : ∀ q ∈ ps, q.1 + 4 ≤ bin.length)
    (hsep : ps.Pairwise (fun a b => a.1 + 4 ≤ b.1))
    (hp : p ∈ ps) :
    (ps.foldl (patchOne labels) bin).getD (p.1 + i) 0 =
      byteAt (int32Bytes (calculateRelOffset p.1 ((labels.lookup p.2).getD 0))) i := by
  induction ps generalizing bin with
  | nil => cases hp
  | cons q t ih =>
    rw [List.foldl_cons]
    rcases List.mem_cons.mp hp with h | h
    · subst h
      rw [patchAll_getD_outside]
      · simp only [patchOne]
        exact write4_getD_inside _ _ _ _ (hb p (by simp)) hi
      · intro r hr
        have := (List.pairwise_cons.mp hsep).1 r hr
        omega
    · apply ih
      · intro r hr
        have := hb r (List.mem_cons_of_mem _ hr)
        simp only [patchOne, length_write4]
        omega
      · exact (List.pairwise_cons.mp hsep).2
      · exact h

/-- Claim C3: for every pending relocation `(pos, label)` in a reachable
assembler state whose label is bound (at offset `L`) by the time `backpatch`
runs, the four placeholder bytes at `pos` afterwards hold, little-endian, the
value `L - (pos + 4)`, the displacement relative to the byte immediately
following the 4-byte reserved placeholder (reduced to its 32-bit two's
complement pattern). -/
theorem c3_backpatch_forward_displacement (ops : List AsmOp) (pos : Nat) (label : String)
    (L : Nat) (hmem : (pos, label) ∈ (runOps ops).pendingPatches)
    (hL : (runOps ops).labelPositions.lookup label = some L)
    (i : Nat) (hi : i < 4) :
    (backpatch (runOps ops)).binary.getD (pos + i) 0 =
      byteAt ((((L : Int) - ((pos : Int) + 4)) % (2 ^ 32 : Int)).toNat) i := by
  have hinv := inv_runOps ops
  have key := patchAll_getD_inside (runOps ops).labelPositions (runOps ops).pendingPatches
    (runOps ops).binary (pos, label) i hi hinv.1 hinv.2 hmem
  rw [hL] at key
  simp only [Option.getD_some] at key
  rw [show (backpatch (runOps ops)).binary =
        (runOps ops).pendingPatches.foldl (patchOne (runOps ops).labelPositions)
          (runOps ops).binary from rfl, key]
  rw [show calculateRelOffset pos L = asInt32 ((L : Int) - ((pos : Int) + 4)) from rfl,
      int32Bytes_asInt32]

/-- Witness for `c3_backpatch_forward_displacement`: emit `call L` before
binding `L`; the label lands at offset 5, the relocation site is offset 1, so
the patched byte 0 is byte 0 of `5 - (1 + 4) = 0`. -/
theorem c3_backpatch_forward_displacement_witness :
    (backpatch (runOps [.emit "dg_08" ["L"], .addLabel "L"])).binary.getD (1 + 0) 0 =
      byteAt (((((5 : Nat) : Int) - (((1 : Nat) : Int) + 4)) % (2 ^ 32 : Int)).toNat) 0 :=
  c3_backpatch_forward_displacement [.emit "dg_08" ["L"], .addLabel "L"] 1 "L" 5
    (by decide) (by decide) 0 (by decide)

/-- Claim C6: in every reachable assembler state, `backpatch` leaves the
buffer length unchanged, every recorded relocation window already lies inside
the buffer (so only existing bytes are overwritten), and every byte outside
the recorded relocation windows keeps its prior value. -/
theorem c6_backpatch_frame (ops : List AsmOp) :
    (backpatch (runOps ops)).binary.length = (runOps ops).binary.length ∧
    (∀ p ∈ (runOps ops).pendingPatches, p.1 + 4 ≤ (runOps ops).binary.length) ∧
    (∀ i, (∀ p ∈ (runOps ops).pendingPatches, i < p.1 ∨ p.1 + 4 ≤ i) →
      (backpatch (runOps ops)).binary.getD i 0 = (runOps ops).binary.getD i 0) :=
  ⟨length_patchAll _ _ _, (inv_runOps ops).1,
   fun i h => patchAll_getD_outside _ _ _ i h⟩

/-- Witness for `c6_backpatch_frame`: after `call L` with pending site 1..4,
byte 0 (the call opcode) is outside the relocation window and is unchanged by
`backpatch`. -/
theorem c6_backpatch_frame_witness :
    (backpatch (runOps [.emit "dg_08" ["L"]])).binary.getD 0 0 =
      (runOps [.emit "dg_08" ["L"]]).binary.getD 0 0 :=
  (c6_backpatch_frame [.emit "dg_08" ["L"]]).2.2 0 (by decide)

/-- Claim C9: in every reachable assembler state, every pending relocation
`(pos, label)` satisfies `pos + 4 ≤ buffer length`, so the four-byte
overwrite `backpatch` performs at `pos` stays within the buffer's bounds. -/
theorem c9_pending_patch_bounded (ops : List AsmOp) (p : Nat × String)
    (hp : p ∈ (runOps ops).pendingPatches) :
    p.1 + 4 ≤ (runOps ops).binary.length :=
  (inv_runOps ops).1 p hp

/-- Witness for `c9_pending_patch_bounded`: the pending site recorded by
`call L` is offset 1 in a 5-byte buffer, and `1 + 4 ≤ 5`. -/
theorem c9_pending_patch_bounded_witness :
    ((1 : Nat), "L").1 + 4 ≤ (runOps [.emit "dg_08" ["L"]]).binary.length :=
  c9_pending_patch_bounded [.emit "dg_08" ["L"]] (1, "L") (by decide)

/-- Claim C10: `disassembleAt` with `pc` at or past the end of the buffer
returns the empty string and leaves `pc` unchanged; with `pc` in range it
returns a nonempty string and advances `pc` by exactly 1 or 2 (in particular
strictly), so repeatedly calling it until it returns the empty string
terminates on every finite buffer. -/
theorem c10_disassembleAt_step (binary : List Nat) (pc : Nat) :
    (binary.length ≤ pc → disassembleAt binary pc = ("", pc)) ∧
    (pc < binary.length →
      (disassembleAt binary pc).1 ≠ "" ∧
      pc < (disassembleAt binary pc).2 ∧
      ((disassembleAt binary pc).2 = pc + 1 ∨ (disassembleAt binary pc).2 = pc + 2)) := by
  constructor
  · intro h
    simp [disassembleAt, h]
  · intro h
    unfold disassembleAt
    rw [if_neg (by omega)]
    dsimp only
    split
    · refine ⟨?_, by omega, Or.inr rfl⟩
      exact append_ne_empty_left _ _ (append_ne_empty_left _ _
        (append_ne_empty_left _ _ (append_ne_empty_left _ _ (mnemonic_ne_empty _))))
    · exact ⟨mnemonic_ne_empty _, by omega, Or.inl rfl⟩

/-- Witness for `c10_disassembleAt_step` on the one-byte buffer `90`:
at `pc = 0` the call yields a nonempty string and advances to 1; at
`pc = 1` it yields the empty string with `pc` unchanged. -/
theorem c10_disassembleAt_step_witness :
    ((disassembleAt [0x90] 0).1 ≠ "" ∧ 0 < (disassembleAt [0x90] 0).2 ∧
      ((disassembleAt [0x90] 0).2 = 0 + 1 ∨ (disassembleAt [0x90] 0).2 = 0 + 2)) ∧
    disassembleAt [0x90] 1 = ("", 1) :=
  ⟨(c10_disassembleAt_step [0x90] 0).2 (by decide),
   (c10_disassembleAt_step [0x90] 1).1 (by decide)⟩

end DG
